import Mathlib

/-!
Verification development for the c-structs schema-driven binary layout
engine (src/src/index.js and src/src/index.ts).

The development shallowly embeds the two core components:

* the layout resolver (`c.struct` / `c.array`): schemas are lists of
  named field types, resolution assigns byte offsets by a running
  offset and computes a total size;
* the view binder (`create`): buffers are lists of bytes held in a
  store, views are (descriptor, buffer id, base offset) triples, and
  field accesses read/write bytes through primitive codecs.

Primitive codecs are modelled parametrically: the spec (section 1)
excludes the host byte buffer as an external collaborator, so a
primitive is a byte width together with an encode/decode pair.  The
integer codecs of the host `DataView` (little-endian, truncate toward
zero, wrap to the kind's width) are also modelled concretely, since
claims about truncation/wrap round trips need them.
-/

/-- A primitive kind as used by the layout engine: a byte width plus a
codec mapping a host numeric value (modelled as a rational) to its
stored bytes and back.  Matches the `size` / DataView getter/setter
triple of the source's primitive descriptors. -/
structure Prim where
  size : Nat
  encode : ℚ → List Nat
  decode : List Nat → ℚ

/-- A codec is well formed when it always produces exactly `size` bytes. -/
def Prim.wf (p : Prim) : Prop := ∀ v, (p.encode v).length = p.size

/-- A primitive of byte width `n` whose byte content is irrelevant to the
statement using it (layout-only reasoning). -/
def mkPrim (n : Nat) : Prim :=
  { size := n, encode := fun _ => List.replicate n 0, decode := fun _ => 0 }

theorem mkPrim_wf (n : Nat) : (mkPrim n).wf := by
  intro v; simp [mkPrim]

/-- Truncation of a host numeric value toward zero, as ECMAScript
`ToIntegerOrInfinity` does before integer wrapping. -/
def jsTrunc (q : ℚ) : Int := q.num.tdiv (q.den : Int)

/-- Wrap a host numeric value to an unsigned integer of `w` bytes:
truncate toward zero, then take the value modulo 2^(8w).  This is the
ECMAScript `ToUint32`-style conversion used by the DataView setters the
source installs. -/
def toUintW (w : Nat) (q : ℚ) : Nat := (jsTrunc q % ((2 : Int) ^ (8 * w))).toNat

/-- Little-endian byte serialization of a natural number into `w` bytes. -/
def leBytes : Nat → Nat → List Nat
  | 0, _ => []
  | w + 1, n => (n % 256) :: leBytes w (n / 256)

/-- Little-endian byte deserialization. -/
def fromLE : List Nat → Nat
  | [] => 0
  | b :: bs => b + 256 * fromLE bs

theorem leBytes_length (w n : Nat) : (leBytes w n).length = w := by
  induction w generalizing n with
  | zero => simp [leBytes]
  | succ w ih => simp [leBytes, ih]

theorem fromLE_leBytes (w n : Nat) : fromLE (leBytes w n) = n % 256 ^ w := by
  induction w generalizing n with
  | zero => simp [leBytes, fromLE, Nat.mod_one]
  | succ w ih =>
      simp only [leBytes, fromLE, ih]
      rw [pow_succ', Nat.div_mod_eq_mod_mul_div]
      have hdvd : (256 : Nat) ∣ 256 * 256 ^ w := ⟨256 ^ w, rfl⟩
      have h1 := Nat.mod_mod_of_dvd n hdvd
      omega

/-- The unsigned integer primitive of `w` bytes: the DataView
`setUintN`/`getUintN` pair, little-endian. -/
def uintPrim (w : Nat) : Prim :=
  { size := w
    encode := fun q => leBytes w (toUintW w q)
    decode := fun bs => ((fromLE bs : Nat) : ℚ) }

/-- The signed integer primitive of `w` bytes: same stored bytes
(two's complement), decoded into the signed range. -/
def intPrim (w : Nat) : Prim :=
  { size := w
    encode := fun q => leBytes w (toUintW w q)
    decode := fun bs =>
      if fromLE bs < 2 ^ (8 * w - 1) then ((fromLE bs : Nat) : ℚ)
      else ((fromLE bs : Nat) : ℚ) - 2 ^ (8 * w) }

theorem uintPrim_wf (w : Nat) : (uintPrim w).wf := by
  intro v; simp [uintPrim, leBytes_length]

theorem intPrim_wf (w : Nat) : (intPrim w).wf := by
  intro v; simp [intPrim, leBytes_length]

/-- The truncation/wrap conversion the claim attributes to an unsigned
kind of `w` bytes: truncate toward zero, wrap modulo 2^(8w). -/
def convUint (w : Nat) (q : ℚ) : ℚ := ((toUintW w q : Nat) : ℚ)

/-- The truncation/wrap conversion for a signed kind of `w` bytes. -/
def convInt (w : Nat) (q : ℚ) : ℚ :=
  if toUintW w q < 2 ^ (8 * w - 1) then ((toUintW w q : Nat) : ℚ)
  else ((toUintW w q : Nat) : ℚ) - 2 ^ (8 * w)

theorem toUintW_lt (w : Nat) (q : ℚ) : toUintW w q < 2 ^ (8 * w) := by
  have hpos : (0 : Int) < (2 : Int) ^ (8 * w) := by positivity
  have h := Int.emod_lt_of_pos (jsTrunc q) hpos
  have h0 := Int.emod_nonneg (jsTrunc q) (ne_of_gt hpos)
  have hc : ((2 : Int) ^ (8 * w)) = (((2 : Nat) ^ (8 * w) : Nat) : Int) := by
    push_cast; ring
  rw [hc] at h h0
  unfold toUintW
  rw [hc]
  omega

theorem uint_roundtrip (w : Nat) (q : ℚ) :
    (uintPrim w).decode ((uintPrim w).encode q) = convUint w q := by
  have hlt : toUintW w q < 256 ^ w := by
    have h1 := toUintW_lt w q
    have h2 : (2 : Nat) ^ (8 * w) = 256 ^ w := by
      rw [pow_mul]; norm_num
    omega
  simp [uintPrim, convUint, fromLE_leBytes, Nat.mod_eq_of_lt hlt]

theorem int_roundtrip (w : Nat) (q : ℚ) :
    (intPrim w).decode ((intPrim w).encode q) = convInt w q := by
  have hlt : toUintW w q < 256 ^ w := by
    have h1 := toUintW_lt w q
    have h2 : (2 : Nat) ^ (8 * w) = 256 ^ w := by
      rw [pow_mul]; norm_num
    omega
  simp [intPrim, convInt, fromLE_leBytes, Nat.mod_eq_of_lt hlt]

/-!
## Layout resolver data model (src/src/index.js)

A resolved field entry mirrors the `entry` objects built by `c.struct`
(index.js lines 45-82): a tagged variant over scalar / vector / nested
struct / array-of-struct, carrying the field name, the assigned byte
offset, and the kind-specific payload.  A struct descriptor packages the
resolved field list with the computed total size (index.js lines 84-87).
-/

mutual
inductive FieldEntry where
  | scalar (name : String) (desc : Prim) (offset : Nat)
  | vector (name : String) (elem : Prim) (length : Nat) (offset : Nat)
  | structf (name : String) (desc : SDesc) (offset : Nat)
  | arrayf (name : String) (elemDesc : SDesc) (length : Nat) (offset : Nat)
inductive SDesc where
  | mk (fields : List FieldEntry) (size : Nat)
end

instance : Inhabited FieldEntry := ⟨.scalar "" (mkPrim 0) 0⟩

/-- The resolved field list of a struct descriptor. -/
def SDesc.fields : SDesc → List FieldEntry
  | .mk fs _ => fs

/-- The total byte size of a struct descriptor. -/
def SDesc.size : SDesc → Nat
  | .mk _ s => s

/-- The byte offset assigned to a resolved field. -/
def FieldEntry.offset : FieldEntry → Nat
  | .scalar _ _ o => o
  | .vector _ _ _ o => o
  | .structf _ _ o => o
  | .arrayf _ _ _ o => o

/-- A schema field type as the JS resolver discriminates it
(index.js lines 49-79): a JS array of primitive descriptors, a value
tagged `kind: 'array'` as produced by `c.array`, a primitive descriptor
(has `arrayType`), a struct descriptor (has `size` and a `create`
function), or anything else. -/
inductive FieldType where
  | vec (elems : List Prim)
  | arrTagged (elemDesc : SDesc) (len : Nat) (sz : Nat)
  | prim (p : Prim)
  | structd (d : SDesc)
  | unknownShape

/-- A JS number argument: either an integer value or a non-integer
(`Number.isInteger` fails on the latter). -/
inductive JsNum where
  | intv (n : Int)
  | nonIntv

/-- The `c.array` helper of index.js lines 25-38, applied to an actual
struct descriptor (such a value always passes the first guard, since it
has a numeric `size` and a `create` function).  On success it returns
the tagged value `{ kind: 'array', elemDesc, length, size }`; note the
result carries no `create` method. -/
def cArrayJS (structDesc : SDesc) (len : JsNum) : Except String FieldType :=
  match len with
  | .intv n =>
      if n ≤ 0 then .error "c.array: length must be a positive integer"
      else .ok (.arrTagged structDesc n.toNat (structDesc.size * n.toNat))
  | .nonIntv => .error "c.array: length must be a positive integer"

/-- The guard chain of `c.array` (index.js lines 26-31) on an arbitrary
first argument, described by whether its `size` is a number and whether
its `create` is a function: first-argument check, then length check. -/
def cArrayGuard (sizeIsNumber : Bool) (createIsFunction : Bool) (len : JsNum) :
    Option String :=
  if !(sizeIsNumber && createIsFunction) then
    some "c.array: first arg must be a struct descriptor"
  else
    match len with
    | .intv n =>
        if n ≤ 0 then some "c.array: length must be a positive integer" else none
    | .nonIntv => some "c.array: length must be a positive integer"

/-- The field walk of `c.struct` (index.js lines 40-84): iterate schema
entries in declaration order with a running offset starting at `off`.
A JS array is a vector classified from its first element (an empty
array crashes reading `.size` of `undefined`); a `kind: 'array'` tag is
an array-of-struct field advancing by the tag's `size`; a primitive
advances by its `size`; a struct descriptor advances by its `size`
unless that size is `0`, in which case the truthiness test
`type.size && ...` fails and the field falls through to the unknown
shape error. -/
def resolveFields : List (String × FieldType) → Nat →
    Except String (List FieldEntry × Nat)
  | [], off => .ok ([], off)
  | (name, t) :: rest, off =>
    match t with
    | .vec [] =>
        .error ("TypeError: Cannot read properties of undefined in field \""
          ++ name ++ "\"")
    | .vec (e :: es) =>
        match resolveFields rest (off + e.size * (es.length + 1)) with
        | .ok (fs, total) => .ok (.vector name e (es.length + 1) off :: fs, total)
        | .error msg => .error msg
    | .arrTagged d len sz =>
        match resolveFields rest (off + sz) with
        | .ok (fs, total) => .ok (.arrayf name d len off :: fs, total)
        | .error msg => .error msg
    | .prim p =>
        match resolveFields rest (off + p.size) with
        | .ok (fs, total) => .ok (.scalar name p off :: fs, total)
        | .error msg => .error msg
    | .structd d =>
        if d.size = 0 then .error ("Unknown field type for \"" ++ name ++ "\"")
        else
          match resolveFields rest (off + d.size) with
          | .ok (fs, total) => .ok (.structf name d off :: fs, total)
          | .error msg => .error msg
    | .unknownShape => .error ("Unknown field type for \"" ++ name ++ "\"")

/-- The `c.struct` entry point: resolve the schema from offset 0 and
package the fields with the final running offset as the total size. -/
def cStructJS (schema : List (String × FieldType)) : Except String SDesc :=
  match resolveFields schema 0 with
  | .ok (fs, total) => .ok (.mk fs total)
  | .error msg => .error msg

/-- Per-field size as stated by the spec's sizing rules: scalar byte
width, vector width times length, nested total size, array element size
times length. -/
def entrySize : FieldEntry → Nat
  | .scalar _ p _ => p.size
  | .vector _ e len _ => e.size * len
  | .structf _ d _ => d.size
  | .arrayf _ e len _ => e.size * len

/-- A schema's array tags are well built when each carries the size
`c.array` computes for it, namely element size times length. -/
def wellTagged (schema : List (String × FieldType)) : Prop :=
  ∀ name d len sz, (name, FieldType.arrTagged d len sz) ∈ schema → sz = d.size * len

/-- Offsets of a left-to-right dense packing that starts at `off` and
advances by each listed size. -/
def offsetsFrom : Nat → List Nat → List Nat
  | _, [] => []
  | off, s :: ss => off :: offsetsFrom (off + s) ss

theorem resolveFields_spec (schema : List (String × FieldType)) :
    ∀ off fs total, wellTagged schema →
    resolveFields schema off = .ok (fs, total) →
    fs.map FieldEntry.offset = offsetsFrom off (fs.map entrySize) ∧
    total = off + (fs.map entrySize).sum ∧ fs.length = schema.length := by
  induction schema with
  | nil =>
      intro off fs total _ h
      simp [resolveFields] at h
      obtain ⟨h1, h2⟩ := h
      subst h1; subst h2
      simp [offsetsFrom]
  | cons hd rest ih =>
      intro off fs total hw h
      obtain ⟨name, t⟩ := hd
      have hwrest : wellTagged rest := by
        intro n d l s hm; exact hw n d l s (List.mem_cons_of_mem _ hm)
      cases t with
      | vec elems =>
          cases elems with
          | nil => simp [resolveFields] at h
          | cons e es =>
              simp only [resolveFields] at h
              cases hrec : resolveFields rest (off + e.size * (es.length + 1)) with
              | error msg => rw [hrec] at h; simp at h
              | ok pr =>
                  obtain ⟨fs', total'⟩ := pr
                  rw [hrec] at h
                  simp only [Except.ok.injEq, Prod.mk.injEq] at h
                  obtain ⟨h1, h2⟩ := h
                  subst h1; subst h2
                  obtain ⟨ho, ht, hl⟩ := ih _ _ _ hwrest hrec
                  refine ⟨?_, ?_, by simp [hl]⟩
                  · simp [offsetsFrom, entrySize, FieldEntry.offset, ho]
                  · simp [entrySize, ht]; ring
      | arrTagged d len sz =>
          simp only [resolveFields] at h
          cases hrec : resolveFields rest (off + sz) with
          | error msg => rw [hrec] at h; simp at h
          | ok pr =>
              obtain ⟨fs', total'⟩ := pr
              rw [hrec] at h
              simp only [Except.ok.injEq, Prod.mk.injEq] at h
              obtain ⟨h1, h2⟩ := h
              subst h1; subst h2
              obtain ⟨ho, ht, hl⟩ := ih _ _ _ hwrest hrec
              have hsz : sz = d.size * len := hw name d len sz (List.mem_cons_self _ _)
              refine ⟨?_, ?_, by simp [hl]⟩
              · simp [offsetsFrom, entrySize, FieldEntry.offset, ho, hsz]
              · simp [entrySize, ht, hsz]; ring
      | prim p =>
          simp only [resolveFields] at h
          cases hrec : resolveFields rest (off + p.size) with
          | error msg => rw [hrec] at h; simp at h
          | ok pr =>
              obtain ⟨fs', total'⟩ := pr
              rw [hrec] at h
              simp only [Except.ok.injEq, Prod.mk.injEq] at h
              obtain ⟨h1, h2⟩ := h
              subst h1; subst h2
              obtain ⟨ho, ht, hl⟩ := ih _ _ _ hwrest hrec
              refine ⟨?_, ?_, by simp [hl]⟩
              · simp [offsetsFrom, entrySize, FieldEntry.offset, ho]
              · simp [entrySize, ht]; ring
      | structd d =>
          simp only [resolveFields] at h
          by_cases hz : d.size = 0
          · rw [if_pos hz] at h; simp at h
          · rw [if_neg hz] at h
            cases hrec : resolveFields rest (off + d.size) with
            | error msg => rw [hrec] at h; simp at h
            | ok pr =>
                obtain ⟨fs', total'⟩ := pr
                rw [hrec] at h
                simp only [Except.ok.injEq, Prod.mk.injEq] at h
                obtain ⟨h1, h2⟩ := h
                subst h1; subst h2
                obtain ⟨ho, ht, hl⟩ := ih _ _ _ hwrest hrec
                refine ⟨?_, ?_, by simp [hl]⟩
                · simp [offsetsFrom, entrySize, FieldEntry.offset, ho]
                · simp [entrySize, ht]; ring
      | unknownShape => simp [resolveFields] at h

/-!
## Byte buffers, the allocation arena, and bound views

The host `ArrayBuffer` is a fixed-length byte allocation; a `DataView`
or typed-array window reads and writes bytes at absolute offsets.  A
buffer is a list of bytes; the arena (`Store`) is the list of buffers
allocated so far, so buffer identity is an index into the arena.  A
bound view is what `create` closes over: the descriptor, the identity
of the buffer it aliases, and its base offset (index.js lines 94-134).
-/

abbrev Buffer := List Nat

abbrev Store := List Buffer

/-- Read one byte at absolute position `i` of buffer `bufId`. -/
def readByte (s : Store) (bufId i : Nat) : Nat :=
  (List.getD (List.getD s bufId []) i 0)

/-- Write a run of bytes starting at absolute position `off` (writes
past the end of the buffer are dropped, matching the unchecked
out-of-bounds policy left open by the spec). -/
def writeBytes : Buffer → Nat → List Nat → Buffer
  | b, _, [] => b
  | b, off, x :: xs => writeBytes (List.set b off x) (off + 1) xs

/-- Write a run of bytes into buffer `bufId` of the arena. -/
def storeWrite (s : Store) (bufId off : Nat) (bs : List Nat) : Store :=
  s.set bufId (writeBytes (List.getD s bufId []) off bs)

/-- Read `n` consecutive bytes starting at absolute position `off`. -/
def readBytesS (s : Store) (bufId off n : Nat) : List Nat :=
  (List.range n).map (fun j => readByte s bufId (off + j))

theorem getD_set_self {α : Type} (l : List α) (i : Nat) (a d : α)
    (h : i < l.length) : (l.set i a).getD i d = a := by
  induction l generalizing i with
  | nil => simp at h
  | cons x xs ih =>
      cases i with
      | zero => simp
      | succ j => simpa using ih j (by simpa using h)

theorem getD_set_ne {α : Type} (l : List α) (i j : Nat) (a d : α) (h : i ≠ j) :
    (l.set i a).getD j d = l.getD j d := by
  induction l generalizing i j with
  | nil => simp
  | cons x xs ih =>
      cases i with
      | zero => cases j with
        | zero => exact absurd rfl h
        | succ j' => simp
      | succ i' => cases j with
        | zero => simp
        | succ j' => simpa using ih i' j' (by omega)

theorem writeBytes_length (bs : List Nat) (b : Buffer) (off : Nat) :
    (writeBytes b off bs).length = b.length := by
  induction bs generalizing b off with
  | nil => simp [writeBytes]
  | cons x xs ih => simp [writeBytes, ih]

theorem getD_writeBytes (bs : List Nat) (b : Buffer) (off i : Nat) :
    (writeBytes b off bs).getD i 0 =
      if off ≤ i ∧ i < off + bs.length ∧ i < b.length then bs.getD (i - off) 0
      else b.getD i 0 := by
  induction bs generalizing b off with
  | nil =>
      simp only [writeBytes, List.length_nil]
      rw [if_neg (by omega)]
  | cons x xs ih =>
      simp only [writeBytes, ih, List.length_set, List.length_cons]
      by_cases hin : off + 1 ≤ i ∧ i < off + 1 + xs.length ∧ i < b.length
      · rw [if_pos hin, if_pos (by omega)]
        have : i - off = (i - (off + 1)) + 1 := by omega
        simp [this]
      · rw [if_neg hin]
        by_cases hi : i = off ∧ off < b.length
        · obtain ⟨rfl, hlen⟩ := hi
          rw [getD_set_self _ _ x 0 hlen, if_pos (by omega)]
          simp
        · rw [if_neg (by omega)]
          rcases eq_or_ne off i with rfl | hne
          · rcases Nat.lt_or_ge off b.length with hlt | hge
            · exact absurd ⟨rfl, hlt⟩ hi
            · rw [List.set_eq_of_length_le hge]
          · exact getD_set_ne b off i x 0 hne

theorem readByte_storeWrite (s : Store) (bufId off : Nat) (bs : List Nat)
    (bufId' i : Nat) :
    readByte (storeWrite s bufId off bs) bufId' i =
      if bufId' = bufId ∧ off ≤ i ∧ i < off + bs.length ∧
          i < (List.getD s bufId []).length ∧ bufId < s.length then
        bs.getD (i - off) 0
      else readByte s bufId' i := by
  unfold readByte storeWrite
  by_cases hb : bufId' = bufId ∧ bufId < s.length
  · obtain ⟨rfl, hlen⟩ := hb
    rw [getD_set_self s bufId' _ [] hlen, getD_writeBytes]
    by_cases hin : off ≤ i ∧ i < off + bs.length ∧ i < (List.getD s bufId' []).length
    · rw [if_pos (by tauto), if_pos (by tauto)]
    · rw [if_neg (by tauto), if_neg (by tauto)]
  · have hget : List.getD (List.set s bufId (writeBytes (List.getD s bufId []) off bs)) bufId' []
        = List.getD s bufId' [] := by
      rcases eq_or_ne bufId' bufId with rfl | hne
      · have hge : s.length ≤ bufId' := by
          rcases Nat.lt_or_ge bufId' s.length with hlt | hge
          · exact absurd ⟨rfl, hlt⟩ hb
          · exact hge
        rw [List.set_eq_of_length_le hge]
      · exact getD_set_ne s bufId bufId' _ [] hne.symm
    rw [hget, if_neg (by tauto)]

/-- A bound view: what one invocation of `create` closes over — the
descriptor whose fields it exposes, the identity of the buffer it
aliases, and its base byte offset inside that buffer. -/
structure ViewRef where
  desc : SDesc
  bufId : Nat
  base : Nat

mutual
/-- All views produced by binding descriptor `d` at `(b, base)`: the
view itself followed by every nested-struct and array-element sub-view,
recursively, exactly as `create` constructs them (index.js lines
116-127): a nested struct field binds one sub-view at `base + offset`
with the same buffer; an array field binds `length` sub-views at
`base + offset + i * elemDesc.size` with the same buffer. -/
def allViewsD : SDesc → Nat → Nat → List ViewRef
  | .mk fs sz, b, base => ⟨.mk fs sz, b, base⟩ :: subViewsF fs b base
termination_by d _ _ => (sizeOf d, 0)
/-- Sub-views contributed by a resolved field list. -/
def subViewsF : List FieldEntry → Nat → Nat → List ViewRef
  | [], _, _ => []
  | .scalar _ _ _ :: rest, b, base => subViewsF rest b base
  | .vector _ _ _ _ :: rest, b, base => subViewsF rest b base
  | .structf _ d off :: rest, b, base =>
      allViewsD d b (base + off) ++ subViewsF rest b base
  | .arrayf _ e len off :: rest, b, base =>
      subViewsA e b (base + off) len ++ subViewsF rest b base
termination_by fs _ _ => (sizeOf fs, 0)
/-- The `k` successive element sub-views of an array field starting at
absolute offset `abs`, stepping by the element descriptor's size. -/
def subViewsA : SDesc → Nat → Nat → Nat → List ViewRef
  | _, _, _, 0 => []
  | e, b, abs, k + 1 => allViewsD e b abs ++ subViewsA e b (abs + e.size) k
termination_by e _ _ k => (sizeOf e, k + 1)
end

/-- The root `create()` call with the buffer argument omitted
(index.js line 94): allocate a fresh buffer of exactly `totalSize`
bytes in the arena and bind the view at base offset 0. -/
def createRoot (d : SDesc) (s : Store) : ViewRef × Store :=
  (⟨d, s.length, 0⟩, s ++ [List.replicate d.size 0])

mutual
theorem bufId_allViewsD (d : SDesc) (b base : Nat) :
    ∀ v ∈ allViewsD d b base, v.bufId = b := by
  match d with
  | .mk fs sz =>
    intro v hv
    rw [allViewsD] at hv
    rcases List.mem_cons.mp hv with h | h
    · subst h; rfl
    · exact bufId_subViewsF fs b base v h
termination_by (sizeOf d, 0)
theorem bufId_subViewsF (fs : List FieldEntry) (b base : Nat) :
    ∀ v ∈ subViewsF fs b base, v.bufId = b := by
  match fs with
  | [] => intro v hv; rw [subViewsF] at hv; simp at hv
  | .scalar _ _ _ :: rest =>
      intro v hv; rw [subViewsF] at hv
      exact bufId_subViewsF rest b base v hv
  | .vector _ _ _ _ :: rest =>
      intro v hv; rw [subViewsF] at hv
      exact bufId_subViewsF rest b base v hv
  | .structf _ d off :: rest =>
      intro v hv; rw [subViewsF] at hv
      rcases List.mem_append.mp hv with h | h
      · exact bufId_allViewsD d b (base + off) v h
      · exact bufId_subViewsF rest b base v h
  | .arrayf _ e len off :: rest =>
      intro v hv; rw [subViewsF] at hv
      rcases List.mem_append.mp hv with h | h
      · exact bufId_subViewsA e b (base + off) len v h
      · exact bufId_subViewsF rest b base v h
termination_by (sizeOf fs, 0)
theorem bufId_subViewsA (e : SDesc) (b abs k : Nat) :
    ∀ v ∈ subViewsA e b abs k, v.bufId = b := by
  match k with
  | 0 => intro v hv; rw [subViewsA] at hv; simp at hv
  | k + 1 =>
      intro v hv; rw [subViewsA] at hv
      rcases List.mem_append.mp hv with h | h
      · exact bufId_allViewsD e b abs v h
      · exact bufId_subViewsA e b (abs + e.size) k v h
termination_by (sizeOf e, k + 1)
end

theorem offsets_pointwise (fs : List FieldEntry) :
    ∀ off, fs.map FieldEntry.offset = offsetsFrom off (fs.map entrySize) →
    (0 < fs.length → (fs.getD 0 default).offset = off) ∧
    ∀ i, i + 1 < fs.length →
      (fs.getD (i + 1) default).offset =
        (fs.getD i default).offset + entrySize (fs.getD i default) := by
  induction fs with
  | nil =>
      intro off _
      exact ⟨fun h0 => absurd h0 (by simp), fun i hi => absurd hi (by simp)⟩
  | cons f rest ih =>
      intro off h
      simp only [List.map_cons, offsetsFrom, List.cons.injEq] at h
      obtain ⟨hhead, htail⟩ := h
      obtain ⟨ih0, ihS⟩ := ih (off + entrySize f) htail
      constructor
      · intro _; simpa using hhead
      · intro i hi
        cases i with
        | zero =>
            have hr : 0 < rest.length := by simpa using Nat.lt_of_succ_lt_succ hi
            simp only [List.getD_cons_succ, List.getD_cons_zero]
            rw [ih0 hr, hhead]
        | succ j =>
            have hj : j + 1 < rest.length := by simpa using Nat.lt_of_succ_lt_succ hi
            simpa using ihS j hj

/-- C1: for every schema accepted by the resolver (with array fields
tagged as `c.array` builds them), field offsets are assigned by a
single left-to-right pass in declaration order: the first field is at
offset 0, each later field sits at the previous field's offset plus the
previous field's size, with no padding, where per-field sizes follow
the scalar/vector/struct/array rules of the spec; and the descriptor's
total size is the sum of the per-field sizes. -/
theorem claim1_layout_single_pass (schema : List (String × FieldType)) (d : SDesc)
    (hw : wellTagged schema) (h : cStructJS schema = .ok d) :
    (0 < d.fields.length → (d.fields.getD 0 default).offset = 0) ∧
    (∀ i, i + 1 < d.fields.length →
      (d.fields.getD (i + 1) default).offset =
        (d.fields.getD i default).offset + entrySize (d.fields.getD i default)) ∧
    d.size = (d.fields.map entrySize).sum := by
  unfold cStructJS at h
  cases hres : resolveFields schema 0 with
  | error msg => rw [hres] at h; simp at h
  | ok pr =>
      obtain ⟨fs, total⟩ := pr
      rw [hres] at h
      simp only [Except.ok.injEq] at h
      subst h
      obtain ⟨ho, ht, _⟩ := resolveFields_spec schema 0 fs total hw hres
      obtain ⟨h0, hS⟩ := offsets_pointwise fs 0 ho
      exact ⟨by simpa [SDesc.fields] using h0,
        by simpa [SDesc.fields] using hS,
        by simpa [SDesc.fields, SDesc.size] using ht⟩

/-- Example nested struct used by the concrete witnesses. -/
def exInner : SDesc := .mk [.scalar "x" (uintPrim 4) 0, .scalar "y" (uintPrim 4) 4] 8

/-- Example schema exercising all four field shapes. -/
def exSchema : List (String × FieldType) :=
  [("a", .prim (uintPrim 4)),
   ("b", .vec [uintPrim 4, uintPrim 4, uintPrim 4]),
   ("c", .structd exInner),
   ("d", .arrTagged exInner 2 16)]

/-- The descriptor the resolver produces for the example schema. -/
def exDesc : SDesc :=
  .mk [.scalar "a" (uintPrim 4) 0, .vector "b" (uintPrim 4) 3 4,
    .structf "c" exInner 16, .arrayf "d" exInner 2 24] 40

theorem exSchema_wellTagged : wellTagged exSchema := by
  intro name dd len sz hm
  simp only [exSchema, List.mem_cons, Prod.mk.injEq, List.not_mem_nil, or_false] at hm
  rcases hm with ⟨h1, h2⟩ | ⟨h1, h2⟩ | ⟨h1, h2⟩ | ⟨h1, h2⟩
  · exact absurd h2 (by simp)
  · exact absurd h2 (by simp)
  · exact absurd h2 (by simp)
  · obtain ⟨he, hl, hs⟩ := FieldType.arrTagged.inj h2
    subst he; subst hl; subst hs
    rfl

theorem exSchema_resolves : cStructJS exSchema = .ok exDesc := by rfl

/-- Witness for C1: the example schema resolves, its offsets follow the
dense left-to-right pass, and its total size is the sum of the
per-field sizes (40 bytes). -/
theorem claim1_layout_single_pass_witness :
    (exDesc.fields.getD 0 default).offset = 0 ∧
    (exDesc.fields.getD 3 default).offset =
      (exDesc.fields.getD 2 default).offset + entrySize (exDesc.fields.getD 2 default) ∧
    exDesc.size = (exDesc.fields.map entrySize).sum := by
  obtain ⟨h0, hS, ht⟩ :=
    claim1_layout_single_pass exSchema exDesc exSchema_wellTagged exSchema_resolves
  exact ⟨h0 (by simp [exDesc, SDesc.fields]), hS 2 (by simp [exDesc, SDesc.fields]), ht⟩

/-- C2: calling `create` with no arguments allocates one fresh buffer of
exactly `descriptor.size` bytes (which is the sum of the per-field
sizes) and binds the returned root view to that buffer at base offset
0, so the byte length of the view's buffer equals the descriptor's
size. -/
theorem claim2_create_fresh_buffer (schema : List (String × FieldType)) (d : SDesc)
    (s : Store) (hw : wellTagged schema) (h : cStructJS schema = .ok d) :
    (createRoot d s).1.base = 0 ∧
    (createRoot d s).1.desc = d ∧
    (createRoot d s).1.bufId = s.length ∧
    (createRoot d s).2.length = s.length + 1 ∧
    (List.getD (createRoot d s).2 (createRoot d s).1.bufId []).length = d.size ∧
    d.size = (d.fields.map entrySize).sum := by
  refine ⟨rfl, rfl, rfl, by simp [createRoot], ?_, ?_⟩
  · have hget : List.getD (s ++ [List.replicate d.size (0 : Nat)]) s.length [] =
        List.replicate d.size 0 := by
      induction s with
      | nil => rfl
      | cons x xs ih => simp [ih]
    simp [createRoot, hget]
  · unfold cStructJS at h
    cases hres : resolveFields schema 0 with
    | error msg => rw [hres] at h; simp at h
    | ok pr =>
        obtain ⟨fs, total⟩ := pr
        rw [hres] at h
        simp only [Except.ok.injEq] at h
        subst h
        obtain ⟨_, ht, _⟩ := resolveFields_spec schema 0 fs total hw hres
        simpa [SDesc.fields, SDesc.size] using ht

/-- Witness for C2: creating the example descriptor on an empty arena
yields a 40-byte fresh buffer aliased by a view at base offset 0. -/
theorem claim2_create_fresh_buffer_witness :
    (createRoot exDesc []).1.base = 0 ∧
    (List.getD (createRoot exDesc []).2 (createRoot exDesc []).1.bufId []).length = 40 := by
  obtain ⟨hb, _, _, _, hlen, _⟩ :=
    claim2_create_fresh_buffer exSchema exDesc [] exSchema_wellTagged exSchema_resolves
  exact ⟨hb, hlen⟩

/-!
## The primitive registries (src/src/index.js lines 2-11 and
src/src/index.ts lines 89-138)

Each registry entry declares a byte `size` and names a typed-array
constructor (whose element byte width is fixed by the host) plus the
DataView accessor pair.  The two source files disagree on `float64`:
the JS file declares `size: 4` while naming `Float64Array` /
`getFloat64` (8-byte codecs); the TS file declares `size: 8`.
-/

/-- The eight primitive kinds of the registry. -/
inductive PrimKind where
  | float32 | float64 | uint16 | uint32 | uint64 | int16 | int32 | int64
deriving DecidableEq, Fintype

/-- A registry entry: the declared byte `size` and the element byte
width of the typed-array constructor the entry names. -/
structure RegEntry where
  size : Nat
  elemBytes : Nat

/-- The registry of src/src/index.js lines 2-11.  Note `float64` is
declared with `size: 4` while its `arrayType` is `Float64Array` and its
accessors are `getFloat64`/`setFloat64`. -/
def pJS : PrimKind → RegEntry
  | .float32 => ⟨4, 4⟩
  | .float64 => ⟨4, 8⟩
  | .uint16 => ⟨2, 2⟩
  | .uint32 => ⟨4, 4⟩
  | .uint64 => ⟨8, 8⟩
  | .int16 => ⟨2, 2⟩
  | .int32 => ⟨4, 4⟩
  | .int64 => ⟨8, 8⟩

/-- The registry of src/src/index.ts lines 89-138 (`float64` has
`size: 8`). -/
def pTS : PrimKind → RegEntry
  | .float32 => ⟨4, 4⟩
  | .float64 => ⟨8, 8⟩
  | .uint16 => ⟨2, 2⟩
  | .uint32 => ⟨4, 4⟩
  | .uint64 => ⟨8, 8⟩
  | .int16 => ⟨2, 2⟩
  | .int32 => ⟨4, 4⟩
  | .int64 => ⟨8, 8⟩

/-- The bit width named by each primitive kind. -/
def bitWidth : PrimKind → Nat
  | .float32 => 32
  | .float64 => 64
  | .uint16 => 16
  | .uint32 => 32
  | .uint64 => 64
  | .int16 => 16
  | .int32 => 32
  | .int64 => 64

/-- C4 (code-bug evaluation): the TS registry gives every kind the byte
width implied by its bit width, but the JS registry declares byte width
4 for `float64` — disagreeing with the claimed width 8, with its own
`Float64Array`/`getFloat64` codec (8 bytes per element), and making a
scalar float64 field advance the running offset by only 4: in a JS
schema with two consecutive float64 scalars the second sits at offset 4
and the total is 8, where the claim requires offset 8 and total 16. -/
theorem claim4_float64_registry_width :
    (∀ k, (pTS k).size = bitWidth k / 8) ∧
    (∀ k, (pTS k).size = (pTS k).elemBytes) ∧
    (pJS PrimKind.float64).size = 4 ∧
    bitWidth PrimKind.float64 / 8 = 8 ∧
    (pJS PrimKind.float64).elemBytes = 8 ∧
    (pJS PrimKind.float64).size ≠ (pJS PrimKind.float64).elemBytes ∧
    cStructJS [("a", .prim (mkPrim (pJS PrimKind.float64).size)),
        ("b", .prim (mkPrim (pJS PrimKind.float64).size))] =
      .ok (.mk [.scalar "a" (mkPrim 4) 0, .scalar "b" (mkPrim 4) 4] 8) := by
  refine ⟨by decide, by decide, rfl, rfl, rfl, by decide, rfl⟩

/-- The four recognized field shapes as the claim and spec section 3
describe them: a scalar primitive, a non-empty vector of primitives, a
reference to an already-built struct descriptor, and a tagged
array-of-struct descriptor.  This is the claim-side notion used to
compare against what the resolver actually accepts. -/
def recognizedShape : FieldType → Prop
  | .vec es => es ≠ []
  | .arrTagged _ _ _ => True
  | .prim _ => True
  | .structd _ => True
  | .unknownShape => False

/-- The shapes the JS resolver actually accepts without throwing: as
`recognizedShape`, except that a nested struct descriptor must have a
non-zero size to pass the truthy `type.size && ...` test. -/
def wellFormedField : FieldType → Prop
  | .vec es => es ≠ []
  | .arrTagged _ _ _ => True
  | .prim _ => True
  | .structd d => d.size ≠ 0
  | .unknownShape => False

/-- The empty struct descriptor, as `c.struct({})` itself builds it. -/
def emptyDesc : SDesc := .mk [] 0

/-- C5 counterexample: a nested-struct field referencing the
descriptor that `c.struct({})` itself returns is one of the four
recognized shapes, yet `c.struct` throws the unknown-shape error on it
(the truthy `type.size &&` test fails on size 0) — even though
`c.array` accepts the very same descriptor.  So "for well-formed inputs
neither operation throws" is false as stated. -/
theorem claim5_counterexample_zero_size_struct :
    recognizedShape (.structd emptyDesc) ∧
    cStructJS [] = .ok emptyDesc ∧
    cStructJS [("x", .structd emptyDesc)] = .error "Unknown field type for \"x\"" ∧
    cArrayJS emptyDesc (.intv 3) = .ok (.arrTagged emptyDesc 3 0) := by
  exact ⟨trivial, rfl, rfl, rfl⟩

theorem resolveFields_wf_ok (schema : List (String × FieldType))
    (h : ∀ ft ∈ schema, wellFormedField ft.2) :
    ∀ off, ∃ fs total, resolveFields schema off = .ok (fs, total) := by
  induction schema with
  | nil => intro off; exact ⟨[], off, rfl⟩
  | cons hd rest ih =>
      intro off
      obtain ⟨name, t⟩ := hd
      have hhd : wellFormedField t := h (name, t) (List.mem_cons_self _ _)
      have hrest : ∀ ft ∈ rest, wellFormedField ft.2 :=
        fun ft hm => h ft (List.mem_cons_of_mem _ hm)
      cases t with
      | vec elems =>
          cases elems with
          | nil => exact absurd hhd (by simp [wellFormedField])
          | cons e es =>
              obtain ⟨fs, total, hr⟩ := ih hrest (off + e.size * (es.length + 1))
              exact ⟨.vector name e (es.length + 1) off :: fs, total,
                by simp only [resolveFields, hr]⟩
      | arrTagged d len sz =>
          obtain ⟨fs, total, hr⟩ := ih hrest (off + sz)
          exact ⟨.arrayf name d len off :: fs, total,
            by simp only [resolveFields, hr]⟩
      | prim p =>
          obtain ⟨fs, total, hr⟩ := ih hrest (off + p.size)
          exact ⟨.scalar name p off :: fs, total,
            by simp only [resolveFields, hr]⟩
      | structd d =>
          have hz : d.size ≠ 0 := hhd
          obtain ⟨fs, total, hr⟩ := ih hrest (off + d.size)
          exact ⟨.structf name d off :: fs, total,
            by simp only [resolveFields, if_neg hz, hr]⟩
      | unknownShape => exact absurd hhd (by simp [wellFormedField])

theorem resolveFields_unknown_names_field (pre : List (String × FieldType))
    (hpre : ∀ ft ∈ pre, wellFormedField ft.2) :
    ∀ off name post,
      resolveFields (pre ++ (name, FieldType.unknownShape) :: post) off =
        .error ("Unknown field type for \"" ++ name ++ "\"") := by
  induction pre with
  | nil => intro off name post; rfl
  | cons hd rest ih =>
      intro off name post
      obtain ⟨n, t⟩ := hd
      have hhd : wellFormedField t := hpre (n, t) (List.mem_cons_self _ _)
      have hrest : ∀ ft ∈ rest, wellFormedField ft.2 :=
        fun ft hm => hpre ft (List.mem_cons_of_mem _ hm)
      cases t with
      | vec elems =>
          cases elems with
          | nil => exact absurd hhd (by simp [wellFormedField])
          | cons e es =>
              rw [List.cons_append]
              simp only [resolveFields]
              rw [ih hrest]
      | arrTagged d len sz =>
          rw [List.cons_append]
          simp only [resolveFields]
          rw [ih hrest]
      | prim p =>
          rw [List.cons_append]
          simp only [resolveFields]
          rw [ih hrest]
      | structd d =>
          have hz : d.size ≠ 0 := hhd
          rw [List.cons_append]
          simp only [resolveFields, if_neg hz]
          rw [ih hrest]
      | unknownShape => exact absurd hhd (by simp [wellFormedField])

/-- C5 as amended: configuration errors fail fast — `c.struct` throws
an error naming the offending field when a field's shape is
unrecognized, `c.array` throws when its first argument lacks a numeric
size or a factory function and when the length is not a positive whole
number — and neither operation throws on well-formed inputs, where
"well formed" additionally excludes nested-struct descriptors of size 0
(which the truthy size test rejects as an unknown shape, per the
counterexample). -/
theorem claim5_config_errors_amended :
    (∀ pre name post, (∀ ft ∈ pre, wellFormedField (Prod.snd ft)) →
      cStructJS (pre ++ (name, FieldType.unknownShape) :: post) =
        .error ("Unknown field type for \"" ++ name ++ "\"")) ∧
    (∀ schema, (∀ ft ∈ schema, wellFormedField (Prod.snd ft)) →
      ∃ d, cStructJS schema = .ok d) ∧
    (∀ d n, n ≤ 0 →
      cArrayJS d (.intv n) = .error "c.array: length must be a positive integer") ∧
    (∀ d, cArrayJS d .nonIntv = .error "c.array: length must be a positive integer") ∧
    (∀ ts cr len, ts = false ∨ cr = false →
      cArrayGuard ts cr len = some "c.array: first arg must be a struct descriptor") ∧
    (∀ d n, 0 < n →
      cArrayJS d (.intv n) = .ok (.arrTagged d n.toNat (d.size * n.toNat))) ∧
    (∀ n : Int, 0 < n → cArrayGuard true true (.intv n) = none) := by
  refine ⟨?_, ?_, ?_, ?_, ?_, ?_, ?_⟩
  · intro pre name post hpre
    unfold cStructJS
    rw [resolveFields_unknown_names_field pre hpre 0 name post]
  · intro schema hwf
    obtain ⟨fs, total, hr⟩ := resolveFields_wf_ok schema hwf 0
    exact ⟨.mk fs total, by simp only [cStructJS, hr]⟩
  · intro d n hn
    simp only [cArrayJS, if_pos hn]
  · intro d; rfl
  · intro ts cr len h
    rcases h with rfl | rfl
    · rfl
    · cases ts <;> rfl
  · intro d n hn
    simp only [cArrayJS, if_neg (by omega : ¬ n ≤ 0)]
  · intro n hn
    simp only [cArrayGuard, Bool.and_self, Bool.not_true]
    rw [if_neg (by simp), if_neg (by omega : ¬ n ≤ 0)]

/-- Witness for the amended C5: concrete instances — an unknown shape
after a well-formed field is reported by name, the example schema
resolves without error, and `c.array` rejects length 0 and a
non-integer length but accepts the example descriptor with length 2. -/
theorem claim5_config_errors_amended_witness :
    cStructJS [("a", .prim (uintPrim 4)), ("x", .unknownShape)] =
      .error "Unknown field type for \"x\"" ∧
    (∃ d, cStructJS exSchema = .ok d) ∧
    cArrayJS exInner (.intv 0) = .error "c.array: length must be a positive integer" ∧
    cArrayJS exInner .nonIntv = .error "c.array: length must be a positive integer" ∧
    cArrayGuard false true (.intv 2) = some "c.array: first arg must be a struct descriptor" ∧
    cArrayJS exInner (.intv 2) = .ok (.arrTagged exInner 2 16) := by
  obtain ⟨h1, h2, h3, h4, h5, h6, _⟩ := claim5_config_errors_amended
  refine ⟨?_, ?_, ?_, h4 exInner, h5 false true (.intv 2) (Or.inl rfl), ?_⟩
  · have := h1 [("a", .prim (uintPrim 4))] "x" []
      (by intro ft hm; simp only [List.mem_cons, List.not_mem_nil, or_false] at hm;
          subst hm; exact trivial)
    simpa using this
  · exact h2 exSchema (by
      intro ft hm
      simp only [exSchema, List.mem_cons, List.not_mem_nil, or_false] at hm
      rcases hm with rfl | rfl | rfl | rfl
      · exact trivial
      · simp [wellFormedField]
      · simp [wellFormedField, exInner, SDesc.size]
      · exact trivial)
  · exact h3 exInner 0 le_rfl
  · have := h6 exInner 2 (by omega)
    simpa [exInner, SDesc.size] using this

theorem getD_append_self (s : Store) (x : Buffer) :
    List.getD (s ++ [x]) s.length [] = x := by
  induction s with
  | nil => rfl
  | cons y ys ih =>
      simp only [List.cons_append, List.length_cons, List.getD_cons_succ]
      exact ih

theorem storeWrite_length (s : Store) (b off : Nat) (bs : List Nat) :
    (storeWrite s b off bs).length = s.length := by
  simp [storeWrite]

theorem storeWrite_buffer_length (s : Store) (b off : Nat) (bs : List Nat) (b' : Nat) :
    (List.getD (storeWrite s b off bs) b' []).length = (List.getD s b' []).length := by
  unfold storeWrite
  rcases eq_or_ne b' b with rfl | hne
  · rcases Nat.lt_or_ge b' s.length with hlt | hge
    · rw [getD_set_self s b' _ [] hlt, writeBytes_length]
    · rw [List.set_eq_of_length_le hge]
  · rw [getD_set_ne s b b' _ [] hne.symm]

theorem readBytesS_storeWrite (s : Store) (b off : Nat) (bs : List Nat)
    (hb : b < s.length) (hr : off + bs.length ≤ (List.getD s b []).length) :
    readBytesS (storeWrite s b off bs) b off bs.length = bs := by
  apply List.ext_get
  · simp [readBytesS]
  · intro i h1 h2
    simp only [readBytesS, List.get_eq_getElem, List.getElem_map, List.getElem_range]
    have hi : i < bs.length := by simpa [readBytesS] using h1
    rw [readByte_storeWrite]
    rw [if_pos ⟨rfl, by omega, by omega, by omega, hb⟩]
    simp only [Nat.add_sub_cancel_left]
    exact (List.getD_eq_getElem bs 0 hi).symm ▸ rfl

/-- The scalar setter `create` installs (index.js line 104): encode the
host value with the field's primitive codec and write the bytes at
`baseOffset + offset`. -/
def scalarSet (s : Store) (v : ViewRef) (off : Nat) (p : Prim) (q : ℚ) : Store :=
  storeWrite s v.bufId (v.base + off) (p.encode q)

/-- The scalar getter `create` installs (index.js line 103): read
`p.size` bytes at `baseOffset + offset` and decode them. -/
def scalarGet (s : Store) (v : ViewRef) (off : Nat) (p : Prim) : ℚ :=
  p.decode (readBytesS s v.bufId (v.base + off) p.size)

/-- C7: writing a value to a scalar field and reading the same field
back returns exactly the codec round-trip of the value — the field's
primitive kind's conversion applied to the written value with no other
change; and for the integer kinds of the registry that conversion is
precisely truncation toward zero followed by wrapping to the kind's
width (e.g. writing 3.7 to a 32-bit unsigned field reads back as 3). -/
theorem claim7_scalar_write_read_roundtrip (p : Prim) (v : ViewRef) (off : Nat)
    (s : Store) (q : ℚ) (hwf : p.wf) (hb : v.bufId < s.length)
    (hr : v.base + off + p.size ≤ (List.getD s v.bufId []).length) :
    scalarGet (scalarSet s v off p q) v off p = p.decode (p.encode q) ∧
    (∀ w x, (uintPrim w).decode ((uintPrim w).encode x) = convUint w x) ∧
    (∀ w x, (intPrim w).decode ((intPrim w).encode x) = convInt w x) ∧
    convUint 4 (37 / 10) = 3 := by
    refine ⟨?_, uint_roundtrip, int_roundtrip, ?_⟩
    · unfold scalarGet scalarSet
      have hlen : (p.encode q).length = p.size := hwf q
      rw [← hlen, readBytesS_storeWrite s v.bufId (v.base + off) (p.encode q) hb
        (by omega)]
    · have hnum : (37 / 10 : ℚ).num = 37 := by norm_num
      have hden : (37 / 10 : ℚ).den = 10 := by norm_num
      have h1 : jsTrunc (37 / 10 : ℚ) = 3 := by
        unfold jsTrunc
        rw [hnum, hden]
        decide
      have h2 : toUintW 4 (37 / 10 : ℚ) = 3 := by
        unfold toUintW
        rw [h1]
        decide
      simp [convUint, h2]

/-- Witness for C7: on a concrete 8-byte buffer, writing 3.7 through a
uint32 scalar field at offset 0 and reading it back yields 3. -/
theorem claim7_scalar_write_read_roundtrip_witness :
    scalarGet (scalarSet [List.replicate 8 0] ⟨exInner, 0, 0⟩ 0 (uintPrim 4) (37 / 10))
      ⟨exInner, 0, 0⟩ 0 (uintPrim 4) = 3 := by
  obtain ⟨h1, h2, _, h4⟩ :=
    claim7_scalar_write_read_roundtrip (uintPrim 4) ⟨exInner, 0, 0⟩ 0
      [List.replicate 8 0] (37 / 10) (uintPrim_wf 4) (by simp)
      (by simp [uintPrim])
  rw [h1, h2, h4]

/-!
## Vector windows (index.js lines 107-115, index.ts lines 396-423)

The vector getter returns a typed-array window over the buffer
sub-range of the field; the setter copies element-wise into that
window.  The JS variant constructs the window once at view construction
time; the TS variant constructs it lazily on first access and caches it
in a `__name` slot.  `Window.id` is the allocation identity of the
window object, so two reads returning equal `id` return the identical
object.
-/

/-- A typed-array window over a buffer sub-range: the value the vector
getter returns. -/
structure Window where
  id : Nat
  bufId : Nat
  byteOffset : Nat
  len : Nat
  elem : Prim

/-- The per-view state of one vector field: the buffer it aliases, the
field's absolute byte offset, element kind and length, and the cached
window if one has been created — `none` at construction in the lazy TS
variant, already `some` at construction in the eager JS variant. -/
structure VecField where
  bufId : Nat
  abs : Nat
  elem : Prim
  len : Nat
  cached : Option Window

/-- A vector field state is consistent when any cached window is the
window over the field's own range — true of both source variants, which
only ever cache the window they construct from the field's data. -/
def VecField.consistent (f : VecField) : Prop :=
  ∀ w, f.cached = some w →
    w.bufId = f.bufId ∧ w.byteOffset = f.abs ∧ w.len = f.len ∧ w.elem = f.elem

/-- The vector getter (index.ts lines 402-416): return the cached
window if present; otherwise construct the window over the buffer at
the field's absolute offset, cache it, and consume one fresh object
identity.  The eager JS variant is the special case where the cache is
populated at view construction. -/
def getVec (f : VecField) (nextId : Nat) : Window × VecField × Nat :=
  match f.cached with
  | some w => (w, f, nextId)
  | none =>
      let w : Window := ⟨nextId, f.bufId, f.abs, f.len, f.elem⟩
      (w, { f with cached := some w }, nextId + 1)

/-- Element-wise copy into a buffer range: the setter loop
`for (i = 0; i < length; i++) ta[i] = arr[i]`, each element write
encoding through the element codec at `abs + i * size`. -/
def copyElems (s : Store) (b abs : Nat) (e : Prim) (len : Nat) (arr : List ℚ) : Store :=
  (List.range len).foldl
    (fun st i => storeWrite st b (abs + i * e.size) (e.encode (arr.getD i 0))) s

/-- The vector setter (index.ts lines 417-421, index.js line 113):
trigger the getter, then copy element-wise into the existing window in
place; the cached window is never replaced. -/
def setVec (f : VecField) (nextId : Nat) (s : Store) (arr : List ℚ) :
    VecField × Nat × Store :=
  match getVec f nextId with
  | (w, f', n') => (f', n', copyElems s w.bufId w.byteOffset w.elem w.len arr)

/-- Reading element `i` through a window. -/
def readElemWin (s : Store) (w : Window) (i : Nat) : ℚ :=
  w.elem.decode (readBytesS s w.bufId (w.byteOffset + i * w.elem.size) w.elem.size)

/-- Writing element `i` through a window: a mutation of the shared
buffer the window aliases, not of the window. -/
def writeElemWin (s : Store) (w : Window) (i : Nat) (q : ℚ) : Store :=
  storeWrite s w.bufId (w.byteOffset + i * w.elem.size) (w.elem.encode q)

/-- C8: on any view, the vector getter returns the identical window on
consecutive reads (one window exists per view, created at or before
first access; the second read changes neither the cache nor the
identity counter); the setter copies element-wise into that existing
window's range and never replaces the cached window; and a mutation
written through the window obtained from one read is visible on a
subsequent read — the next read returns the same window and decodes the
newly written bytes. -/
theorem claim8_vector_window_identity (f : VecField) (nextId : Nat) (s : Store)
    (arr : List ℚ) :
    ((getVec (getVec f nextId).2.1 (getVec f nextId).2.2).1 = (getVec f nextId).1 ∧
     (getVec (getVec f nextId).2.1 (getVec f nextId).2.2).2.1 = (getVec f nextId).2.1 ∧
     (getVec (getVec f nextId).2.1 (getVec f nextId).2.2).2.2 = (getVec f nextId).2.2 ∧
     ((getVec f nextId).2.1).cached = some (getVec f nextId).1) ∧
    ((setVec f nextId s arr).1 = (getVec f nextId).2.1 ∧
     (setVec f nextId s arr).2.1 = (getVec f nextId).2.2 ∧
     (setVec f nextId s arr).2.2 =
       copyElems s ((getVec f nextId).1).bufId ((getVec f nextId).1).byteOffset
         ((getVec f nextId).1).elem ((getVec f nextId).1).len arr) ∧
    (∀ i q, f.consistent → f.elem.wf → f.bufId < s.length →
      f.abs + f.len * f.elem.size ≤ (List.getD s f.bufId []).length → i < f.len →
      readElemWin (writeElemWin s (getVec f nextId).1 i q) (getVec f nextId).1 i =
        f.elem.decode (f.elem.encode q)) := by
  refine ⟨?_, ?_, ?_⟩
  · cases hc : f.cached with
    | some w => simp [getVec, hc]
    | none => simp [getVec, hc]
  · cases hc : f.cached with
    | some w => simp [getVec, setVec, hc]
    | none => simp [getVec, setVec, hc]
  · intro i q hcons hwf hb hr hi
    have hfields : ((getVec f nextId).1).bufId = f.bufId ∧
        ((getVec f nextId).1).byteOffset = f.abs ∧
        ((getVec f nextId).1).len = f.len ∧ ((getVec f nextId).1).elem = f.elem := by
      cases hc : f.cached with
      | some w =>
          have := hcons w hc
          simpa [getVec, hc] using this
      | none => simp [getVec, hc]
    obtain ⟨hbu, hof, _, hel⟩ := hfields
    unfold readElemWin writeElemWin
    rw [hbu, hof, hel]
    have hstep : f.abs + i * f.elem.size + f.elem.size ≤
        (List.getD s f.bufId []).length := by
      have hmul : (i + 1) * f.elem.size ≤ f.len * f.elem.size :=
        Nat.mul_le_mul_right _ hi
      have : i * f.elem.size + f.elem.size = (i + 1) * f.elem.size := by ring
      omega
    have hlen : (f.elem.encode q).length = f.elem.size := hwf q
    have hrw := readBytesS_storeWrite s f.bufId (f.abs + i * f.elem.size)
      (f.elem.encode q) hb (by omega)
    rw [hlen] at hrw
    rw [hrw]

/-- Witness for C8: a concrete lazily-initialized uint32×3 vector field
over a 12-byte buffer — writing 5 to element 1 through the window
returned by the first read is read back as 5. -/
theorem claim8_vector_window_identity_witness :
    (getVec (getVec ⟨0, 0, uintPrim 4, 3, none⟩ 0).2.1 (getVec ⟨0, 0, uintPrim 4, 3, none⟩ 0).2.2).1 =
      (getVec ⟨0, 0, uintPrim 4, 3, none⟩ 0).1 ∧
    readElemWin
      (writeElemWin [List.replicate 12 0] (getVec ⟨0, 0, uintPrim 4, 3, none⟩ 0).1 1 5)
      (getVec ⟨0, 0, uintPrim 4, 3, none⟩ 0).1 1 = 5 := by
  obtain ⟨⟨hident, _, _, _⟩, _, hvis⟩ :=
    claim8_vector_window_identity ⟨0, 0, uintPrim 4, 3, none⟩ 0
      [List.replicate 12 0] []
  refine ⟨hident, ?_⟩
  have h := hvis 1 5 (by intro w hw; simp at hw) (uintPrim_wf 4) (by simp)
    (by simp [uintPrim]) (by decide)
  rw [h, uint_roundtrip]
  have hnum : (5 : ℚ).num = 5 := by norm_num
  have hden : (5 : ℚ).den = 1 := by norm_num
  have h1 : jsTrunc (5 : ℚ) = 5 := by
    unfold jsTrunc; rw [hnum, hden]; decide
  have h2 : toUintW 4 (5 : ℚ) = 5 := by
    unfold toUintW; rw [h1]; decide
  simp [convUint, h2]

theorem copyElems_succ (s : Store) (b abs : Nat) (e : Prim) (n : Nat) (arr : List ℚ) :
    copyElems s b abs e (n + 1) arr =
      storeWrite (copyElems s b abs e n arr) b (abs + n * e.size)
        (e.encode (arr.getD n 0)) := by
  unfold copyElems
  rw [List.range_succ, List.foldl_append]
  rfl

theorem copyElems_store_length (s : Store) (b abs : Nat) (e : Prim) (len : Nat)
    (arr : List ℚ) : (copyElems s b abs e len arr).length = s.length := by
  induction len with
  | zero => rfl
  | succ n ih => rw [copyElems_succ, storeWrite_length, ih]

theorem copyElems_buffer_length (s : Store) (b abs : Nat) (e : Prim) (len : Nat)
    (arr : List ℚ) (b' : Nat) :
    (List.getD (copyElems s b abs e len arr) b' []).length =
      (List.getD s b' []).length := by
  induction len with
  | zero => rfl
  | succ n ih => rw [copyElems_succ, storeWrite_buffer_length, ih]

theorem readByte_copyElems_outside (s : Store) (b abs : Nat) (e : Prim)
    (hwf : e.wf) (len : Nat) (arr : List ℚ) (b' j : Nat)
    (h : b' ≠ b ∨ j < abs ∨ abs + len * e.size ≤ j) :
    readByte (copyElems s b abs e len arr) b' j = readByte s b' j := by
  induction len with
  | zero => rfl
  | succ n ih =>
      rw [copyElems_succ, readByte_storeWrite]
      have hL := hwf (arr.getD n 0)
      rw [if_neg (by
        rintro ⟨rfl, h1, h2, _, _⟩
        rcases h with hb | hj | hj
        · exact hb rfl
        · omega
        · have : n * e.size + e.size = (n + 1) * e.size := by ring
          omega)]
      apply ih
      rcases h with hb | hj | hj
      · exact Or.inl hb
      · exact Or.inr (Or.inl hj)
      · refine Or.inr (Or.inr ?_)
        have : n * e.size ≤ (n + 1) * e.size := by
          apply Nat.mul_le_mul_right
          omega
        omega

theorem readByte_copyElems_inside (s : Store) (b abs : Nat) (e : Prim)
    (hwf : e.wf) (len : Nat) (arr : List ℚ) (hb : b < s.length)
    (hr : abs + len * e.size ≤ (List.getD s b []).length) (i k : Nat)
    (hi : i < len) (hk : k < e.size) :
    readByte (copyElems s b abs e len arr) b (abs + i * e.size + k) =
      (e.encode (arr.getD i 0)).getD k 0 := by
  induction len with
  | zero => omega
  | succ n ih =>
      rw [copyElems_succ, readByte_storeWrite]
      have hL := hwf (arr.getD n 0)
      have hmul : (i + 1) * e.size ≤ (n + 1) * e.size :=
        Nat.mul_le_mul_right _ (by omega)
      have hexp : (i + 1) * e.size = i * e.size + e.size := by ring
      have hexp2 : (n + 1) * e.size = n * e.size + e.size := by ring
      rcases eq_or_ne i n with rfl | hne
      · have hb' : b < (copyElems s b abs e i arr).length := by
          rw [copyElems_store_length]; exact hb
        have hbuf : abs + i * e.size + k <
            (List.getD (copyElems s b abs e i arr) b []).length := by
          rw [copyElems_buffer_length]; omega
        rw [if_pos ⟨rfl, by omega, by omega, hbuf, hb'⟩]
        have hidx : abs + i * e.size + k - (abs + i * e.size) = k := by omega
        rw [hidx]
      · have hin : i < n := by omega
        have hlt : abs + i * e.size + k < abs + n * e.size := by
          have : (i + 1) * e.size ≤ n * e.size := Nat.mul_le_mul_right _ (by omega)
          omega
        rw [if_neg (by rintro ⟨_, h1, _, _, _⟩; omega)]
        exact ih (by omega) hin

/-- C6: every view produced by one root `create` call — the root view
and every nested-struct and array-element sub-view, recursively —
references exactly the one buffer that call allocated; and a write of a
scalar field or of a vector assignment performed through any one view
is immediately visible when reading through any other view whose byte
range covers the written bytes: the covered byte reads back as the byte
just written. -/
theorem claim6_single_shared_buffer (d : SDesc) (s : Store) :
    (∀ v ∈ allViewsD d (createRoot d s).1.bufId (createRoot d s).1.base,
      v.bufId = (createRoot d s).1.bufId) ∧
    (createRoot d s).2.length = s.length + 1 ∧
    (∀ (s' : Store) (v w : ViewRef),
      v ∈ allViewsD d (createRoot d s).1.bufId 0 →
      w ∈ allViewsD d (createRoot d s).1.bufId 0 →
      ∀ (p : Prim) (off k : Nat) (q : ℚ),
        v.bufId < s'.length →
        v.base + off + (p.encode q).length ≤ (List.getD s' v.bufId []).length →
        v.base + off ≤ w.base + k →
        w.base + k < v.base + off + (p.encode q).length →
        readByte (scalarSet s' v off p q) w.bufId (w.base + k) =
          (p.encode q).getD (w.base + k - (v.base + off)) 0) ∧
    (∀ (s' : Store) (v w : ViewRef),
      v ∈ allViewsD d (createRoot d s).1.bufId 0 →
      w ∈ allViewsD d (createRoot d s).1.bufId 0 →
      ∀ (e : Prim) (off n i k m : Nat) (arr : List ℚ),
        e.wf → v.bufId < s'.length →
        v.base + off + n * e.size ≤ (List.getD s' v.bufId []).length →
        i < n → k < e.size →
        w.base + m = v.base + off + i * e.size + k →
        readByte (copyElems s' v.bufId (v.base + off) e n arr) w.bufId (w.base + m) =
          (e.encode (arr.getD i 0)).getD k 0) := by
  refine ⟨?_, by simp [createRoot], ?_, ?_⟩
  · intro v hv
    exact bufId_allViewsD d _ _ v hv
  · intro s' v w hv hw p off k q hb hr h1 h2
    have hvb := bufId_allViewsD d _ 0 v hv
    have hwb := bufId_allViewsD d _ 0 w hw
    unfold scalarSet
    rw [readByte_storeWrite]
    rw [if_pos ⟨by rw [hvb, hwb], by omega, by omega, by omega, hb⟩]
  · intro s' v w hv hw e off n i k m arr hwf hb hr hi hk hm
    have hvb := bufId_allViewsD d _ 0 v hv
    have hwb := bufId_allViewsD d _ 0 w hw
    rw [hwb, ← hvb, hm]
    exact readByte_copyElems_inside s' v.bufId (v.base + off) e hwf n arr hb hr i k hi hk

/-- Witness for C6: in the store created for the example descriptor,
writing 5 through the uint32 scalar `x` of the first array-element
sub-view (base 24) is read back, through the root view, as byte 5 at
absolute position 24. -/
theorem claim6_single_shared_buffer_witness :
    readByte
      (scalarSet (createRoot exDesc []).2 ⟨exInner, 0, 24⟩ 0 (uintPrim 4) 5) 0 24 = 5 := by
  obtain ⟨h1, h2, h3, h4⟩ := claim6_single_shared_buffer exDesc []
  have hv : (⟨exInner, 0, 24⟩ : ViewRef) ∈ allViewsD exDesc 0 0 := by
    simp [allViewsD, subViewsF, subViewsA, exDesc, exInner, SDesc.size]
  have hw : (⟨exDesc, 0, 0⟩ : ViewRef) ∈ allViewsD exDesc 0 0 := by
    simp [allViewsD, subViewsF, subViewsA, exDesc, exInner, SDesc.size]
  have h5 := h3 (createRoot exDesc []).2 ⟨exInner, 0, 24⟩ ⟨exDesc, 0, 0⟩ hv hw
    (uintPrim 4) 0 24 5 (by simp [createRoot]) ?hlen (by decide) ?hcov
  case hlen =>
    simp [createRoot, uintPrim, leBytes_length, getD_append_self, exDesc, SDesc.size]
  case hcov =>
    show 0 + 24 < 24 + 0 + ((uintPrim 4).encode 5).length
    simp only [uintPrim]
    rw [leBytes_length]
    omega
  rw [h5]
  have hnum : (5 : ℚ).num = 5 := by norm_num
  have hden : (5 : ℚ).den = 1 := by norm_num
  have ht : toUintW 4 (5 : ℚ) = 5 := by
    unfold toUintW jsTrunc
    rw [hnum, hden]
    decide
  simp [uintPrim, ht, leBytes]

/-- The `create` of the descriptor returned by the TS `c.array`
(index.ts lines 257-274): bind `length` element sub-views over the same
buffer at `baseOffset + i * elemSize`, in index order. -/
def tsArrayCreateViews (e : SDesc) (len : Nat) (b base : Nat) : List ViewRef :=
  (List.range len).map (fun i => ⟨e, b, base + i * e.size⟩)

/-- The root `create()` of a TS array descriptor with the buffer
omitted: allocate `elemSize * length` fresh bytes and bind the element
sub-views at base offset 0. -/
def tsArrayCreateRoot (e : SDesc) (len : Nat) (s : Store) : List ViewRef × Store :=
  (tsArrayCreateViews e len s.length 0, s ++ [List.replicate (e.size * len) 0])

/-- The Item of the claim: a struct whose single field is a 3-element
vector of primitive `p` at offset 0, with total size `3 * p.size`
(12 bytes for a 4-byte kind such as float32). -/
def vec3Item (p : Prim) : SDesc := .mk [.vector "color" p 3 0] (p.size * 3)

/-- C9: for a root view over `array(Item, 3)` with
`Item = {color: 4-byte-primitive × 3}`, the three element sub-views sit
at offsets 0, 12, 24 over one buffer, and assigning to `items[1]`'s
vector field changes only bytes 12 through 23: every byte in [0,12) and
[24,36) — and hence every element of `items[0]` and `items[2]` — is
unchanged, while bytes [12,24) hold the encoded assigned elements. -/
theorem claim9_items1_assignment_frame (p : Prim) (hwf : p.wf) (h4 : p.size = 4)
    (s' : Store) (b0 : Nat) (arr : List ℚ) (hb : b0 < s'.length)
    (hlen : (List.getD s' b0 []).length = 36) :
    tsArrayCreateViews (vec3Item p) 3 b0 0 =
      [⟨vec3Item p, b0, 0⟩, ⟨vec3Item p, b0, 12⟩, ⟨vec3Item p, b0, 24⟩] ∧
    (∀ j, j < 36 → j < 12 ∨ 24 ≤ j →
      readByte (copyElems s' b0 12 p 3 arr) b0 j = readByte s' b0 j) ∧
    (∀ i k, i < 3 → k < p.size →
      readByte (copyElems s' b0 12 p 3 arr) b0 (12 + i * p.size + k) =
        (p.encode (arr.getD i 0)).getD k 0) ∧
    (∀ i, i < 3 →
      readBytesS (copyElems s' b0 12 p 3 arr) b0 (i * p.size) p.size =
        readBytesS s' b0 (i * p.size) p.size ∧
      readBytesS (copyElems s' b0 12 p 3 arr) b0 (24 + i * p.size) p.size =
        readBytesS s' b0 (24 + i * p.size) p.size) := by
  refine ⟨?_, ?_, ?_, ?_⟩
  · simp [tsArrayCreateViews, vec3Item, SDesc.size, h4, List.range_succ]
  · intro j hj hside
    apply readByte_copyElems_outside s' b0 12 p hwf 3 arr b0 j
    rcases hside with h | h
    · exact Or.inr (Or.inl h)
    · refine Or.inr (Or.inr ?_)
      omega
  · intro i k hi hk
    exact readByte_copyElems_inside s' b0 12 p hwf 3 arr hb (by omega) i k hi hk
  · intro i hi
    constructor
    · unfold readBytesS
      apply List.map_congr_left
      intro j hj
      have hjlt : j < p.size := List.mem_range.mp hj
      apply readByte_copyElems_outside s' b0 12 p hwf 3 arr b0 _
      refine Or.inr (Or.inl ?_)
      rw [h4] at hjlt ⊢
      omega
    · unfold readBytesS
      apply List.map_congr_left
      intro j hj
      have hjlt : j < p.size := List.mem_range.mp hj
      apply readByte_copyElems_outside s' b0 12 p hwf 3 arr b0 _
      refine Or.inr (Or.inr ?_)
      rw [h4]
      omega

/-- Witness for C9: with a concrete 4-byte codec over a 36-byte buffer,
assigning `[1, 2, 3]` to `items[1]`'s vector leaves byte 0 (in
`items[0]`) and byte 24 (in `items[2]`) at their old value 0 and puts
the encoded 1 at byte 12. -/
theorem claim9_items1_assignment_frame_witness :
    readByte (copyElems [List.replicate 36 0] 0 12 (uintPrim 4) 3 [1, 2, 3]) 0 0 = 0 ∧
    readByte (copyElems [List.replicate 36 0] 0 12 (uintPrim 4) 3 [1, 2, 3]) 0 24 = 0 ∧
    readByte (copyElems [List.replicate 36 0] 0 12 (uintPrim 4) 3 [1, 2, 3]) 0 12 = 1 := by
  obtain ⟨hviews, houter, hinner, helems⟩ :=
    claim9_items1_assignment_frame (uintPrim 4) (uintPrim_wf 4) rfl
      [List.replicate 36 0] 0 [1, 2, 3] (by decide) (by simp)
  have hnum : (1 : ℚ).num = 1 := by norm_num
  have hden : (1 : ℚ).den = 1 := by norm_num
  have ht : toUintW 4 (1 : ℚ) = 1 := by
    unfold toUintW jsTrunc
    rw [hnum, hden]
    decide
  refine ⟨?_, ?_, ?_⟩
  · rw [houter 0 (by omega) (Or.inl (by omega))]
    simp [readByte]
  · rw [houter 24 (by omega) (Or.inr (by omega))]
    simp [readByte]
  · have h := hinner 0 0 (by omega) (by decide)
    simpa [uintPrim, ht, leBytes] using h

/-- C10: the resolver classifies a non-empty list field as a vector
using only the element at position 0 and the list's length — the kinds
of the remaining elements are never inspected: resolution is identical
for any two vector fields sharing first element and length; a
heterogeneous list resolves with no homogeneity check or error, laid
out as `length` copies of the first kind (the two-element list with a
4-byte head and a 2-byte second element occupies 2 × 4 = 8 bytes); and
the window the binder constructs for the field takes its element kind
(hence its numeric type and element byte size) from the recorded first
element. -/
theorem claim10_vector_first_element_only :
    (∀ name e (rest rest' : List Prim) (restSchema : List (String × FieldType)) off,
      rest.length = rest'.length →
      resolveFields ((name, .vec (e :: rest)) :: restSchema) off =
        resolveFields ((name, .vec (e :: rest')) :: restSchema) off) ∧
    cStructJS [("h", .vec [mkPrim 4, mkPrim 2])] =
      .ok (.mk [.vector "h" (mkPrim 4) 2 0] 8) ∧
    (∀ b abs nid, (getVec ⟨b, abs, mkPrim 4, 2, none⟩ nid).1.elem = mkPrim 4 ∧
      (getVec ⟨b, abs, mkPrim 4, 2, none⟩ nid).1.len = 2) := by
  refine ⟨?_, rfl, ?_⟩
  · intro name e rest rest' restSchema off hlen
    simp only [resolveFields, hlen]
  · intro b abs nid
    exact ⟨rfl, rfl⟩

/-- Witness for C10: two heterogeneous two-element vector fields with
the same 4-byte head but different (2-byte versus 8-byte) second
elements resolve identically. -/
theorem claim10_vector_first_element_only_witness :
    resolveFields [("h", .vec [mkPrim 4, mkPrim 2])] 0 =
      resolveFields [("h", .vec [mkPrim 4, mkPrim 8])] 0 := by
  exact (claim10_vector_first_element_only).1 "h" (mkPrim 4) [mkPrim 2] [mkPrim 8] [] 0 rfl

/-!
## The TypeScript variant's array handling (src/src/index.ts, lines
241-342)

The TS `c.array` returns a plain `{size, create}` object: no `kind`
tag and no `length` property.  The TS `c.struct` then discriminates
"array of struct" from "nested struct" by probing: it calls the
descriptor's `create()` with no arguments and tests `Array.isArray` on
the result.  When the probe matches, it records `elemDesc: type` (the
array descriptor itself), `length: type.length` — a property that does
not exist, i.e. `undefined` — and advances the running offset by
`type.size * type.length`, which is `NaN`.  Undefined numbers and `NaN`
are modelled as `none`.
-/

/-- A descriptor value as the TS resolver sees it: a plain struct
descriptor, or the `{size, create}` object the TS `c.array` returns for
an element descriptor and a length. -/
inductive TsDesc where
  | structD (d : SDesc)
  | arrayD (elemDesc : SDesc) (len : Nat)

/-- The `size` property (index.ts line 256: `structDesc.size * length`
for an array descriptor). -/
def TsDesc.size : TsDesc → Nat
  | .structD d => d.size
  | .arrayD e len => e.size * len

/-- The `length` property: neither descriptor object has one, so the
read yields `undefined`. -/
def TsDesc.lengthProp : TsDesc → Option Nat
  | _ => none

/-- Whether `create()` with no arguments returns an array — the probe
of index.ts line 304: true exactly for the array descriptor. -/
def TsDesc.createReturnsArray : TsDesc → Bool
  | .structD _ => false
  | .arrayD _ _ => true

/-- A schema field as the TS resolver discriminates it. -/
inductive TsFieldType where
  | vec (elems : List Prim)
  | desc (t : TsDesc)
  | prim (p : Prim)
  | unknownShape

/-- A resolved TS field entry; lengths and offsets are `Option Nat`
because the array branch records the nonexistent `length` property and
propagates `NaN` offsets. -/
inductive TsEntry where
  | scalar (name : String) (p : Prim) (offset : Option Nat)
  | vector (name : String) (elem : Prim) (length : Nat) (offset : Option Nat)
  | structE (name : String) (d : TsDesc) (offset : Option Nat)
  | arrayE (name : String) (elemDesc : TsDesc) (length : Option Nat) (offset : Option Nat)

/-- The TS field walk (index.ts lines 283-341): as the JS one, but
array-of-struct fields are detected by the `create()` probe; a detected
array field stores the whole descriptor as `elemDesc`, the undefined
`length`, and advances the offset by `size * undefined = NaN` (`none`),
which then contaminates every later offset and the total. -/
def tsResolveFields : List (String × TsFieldType) → Option Nat →
    Except String (List TsEntry × Option Nat)
  | [], off => .ok ([], off)
  | (name, t) :: rest, off =>
    match t with
    | .vec [] =>
        .error ("TypeError: Cannot read properties of undefined in field \""
          ++ name ++ "\"")
    | .vec (e :: es) =>
        match tsResolveFields rest (off.map (· + e.size * (es.length + 1))) with
        | .ok (fs, total) =>
            .ok (.vector name e (es.length + 1) off :: fs, total)
        | .error msg => .error msg
    | .desc td =>
        if td.size ≠ 0 && td.createReturnsArray then
          match tsResolveFields rest none with
          | .ok (fs, total) =>
              .ok (.arrayE name td td.lengthProp off :: fs, total)
          | .error msg => .error msg
        else if td.size ≠ 0 then
          match tsResolveFields rest (off.map (· + td.size)) with
          | .ok (fs, total) => .ok (.structE name td off :: fs, total)
          | .error msg => .error msg
        else .error ("Unknown field type for \"" ++ name ++ "\"")
    | .prim p =>
        match tsResolveFields rest (off.map (· + p.size)) with
        | .ok (fs, total) => .ok (.scalar name p off :: fs, total)
        | .error msg => .error msg
    | .unknownShape => .error ("Unknown field type for \"" ++ name ++ "\"")

/-- The TS `c.struct` entry point: resolve from offset 0; the total
size is the final running offset, `none` when any array field made it
`NaN`. -/
def cStructTS (schema : List (String × TsFieldType)) :
    Except String (List TsEntry × Option Nat) :=
  tsResolveFields schema (some 0)

/-- The Item of the claim with a codec-abstract 4-byte element kind. -/
def item12 : SDesc := .mk [.vector "color" (mkPrim 4) 3 0] 12

/-- C3 (code-bug evaluation): the TS `c.array(Item, 3)` descriptor has
size 36 = 3 × Item.size and, instantiated directly, binds three element
sub-views at offsets 0, 12, 24 over one fresh 36-byte buffer; but used
as a field inside another schema the TS resolver records the array
descriptor itself as the element descriptor, records `undefined`
(`none`) instead of the element count 3, and computes a `NaN` (`none`)
total size instead of 36 — the claimed array-of-struct field resolution
does not happen. -/
theorem claim3_array_descriptor_both_uses :
    TsDesc.size (.arrayD item12 3) = 36 ∧
    36 = 3 * item12.size ∧
    (tsArrayCreateRoot item12 3 []).1 =
      [⟨item12, 0, 0⟩, ⟨item12, 0, 12⟩, ⟨item12, 0, 24⟩] ∧
    (List.getD (tsArrayCreateRoot item12 3 []).2 0 []).length = 36 ∧
    cStructTS [("items", .desc (.arrayD item12 3))] =
      .ok ([.arrayE "items" (.arrayD item12 3) none (some 0)], none) := by
  refine ⟨rfl, rfl, ?_, ?_, rfl⟩
  · simp [tsArrayCreateRoot, tsArrayCreateViews, item12, SDesc.size, List.range_succ]
  · simp [tsArrayCreateRoot, item12, SDesc.size]
